import Mathlib

/-!
# Verification of the argus HelpScout CLI against its specification

Shallow embedding of the argus code base (a TypeScript CLI that downloads
HelpScout conversations) in Lean 4, together with theorems settling the
frozen claims about it.

Modelling conventions:
* JavaScript strings are `String` / `List Char`; the regex-chain functions
  (`cleanHtml`, `sanitizeFilename`, `extractConversationId`) are implemented
  as executable scanners with JavaScript `String.replace` semantics
  (leftmost match, global, the replacement is not rescanned).
* Timestamps are modelled as epoch milliseconds (`Int`); the JavaScript
  `new Date(s).getTime()` on an ISO string is the identity on this
  representation.
* `number` values fed to `formatFileSize` are `ℚ`; `Number.prototype.toFixed`
  is modelled after the ECMAScript specification (round to nearest, ties away
  from zero, via the sign-split in the spec).
* The effectful OAuth manager is modelled by explicit state passing over an
  environment carrying the token file state, the clock readings and the
  (abstract) token-endpoint responses; fallible operations return `Except`.
-/

namespace Argus

/-! ## Character classes and list utilities -/

/-- The JavaScript `\s` / trim whitespace class (ASCII part plus NBSP); used
by `sanitizeFilename`'s `\s+` rule, `cleanHtml`'s `<br\s*\/?>` rule and
`String.prototype.trim`. -/
def isJsWs (c : Char) : Bool :=
  c == ' ' || c == '\t' || c == '\n' || c == '\r' || c == '\x0b' || c == '\x0c' || c == ' '

/-! ## `sanitizeFilename` (src/commands/conversations.ts)

```
function sanitizeFilename(filename: string): string {
  return filename
    .replace(/[<>:"/\\|?*]/g, '_')
    .replace(/\s+/g, '_')
    .replace(/_{2,}/g, '_')
    .replace(/^_+|_+$/g, '');
}
```
-/

/-- The character class `[<>:"/\\|?*]` of the first `sanitizeFilename` rule. -/
def badChar (c : Char) : Bool :=
  c == '<' || c == '>' || c == ':' || c == '"' || c == '/' || c == '\\' ||
  c == '|' || c == '?' || c == '*'

/-- `.replace(/[<>:"/\\|?*]/g, '_')`: every unsafe character becomes `_`. -/
def replaceBadChars (l : List Char) : List Char :=
  l.map (fun c => if badChar c then '_' else c)

/-- `.replace(/\s+/g, '_')`: each maximal whitespace run becomes one `_`.
The boolean flag records whether the scanner is inside a whitespace run
(the `_` for the run was already emitted). -/
def collapseWsAux : Bool → List Char → List Char
  | _, [] => []
  | true, c :: cs => if isJsWs c then collapseWsAux true cs else c :: collapseWsAux false cs
  | false, c :: cs =>
    if isJsWs c then '_' :: collapseWsAux true cs else c :: collapseWsAux false cs

/-- `.replace(/_{2,}/g, '_')`: each maximal run of underscores becomes one
underscore (a run of length one is left alone, which is the same output).
The flag records whether the scanner is inside an underscore run. -/
def collapseUsAux : Bool → List Char → List Char
  | _, [] => []
  | true, c :: cs => if c == '_' then collapseUsAux true cs else c :: collapseUsAux false cs
  | false, c :: cs =>
    if c == '_' then '_' :: collapseUsAux true cs else c :: collapseUsAux false cs

/-- `.replace(/^_+|_+$/g, '')`: strip leading and trailing underscores. -/
def trimUnderscores (l : List Char) : List Char :=
  ((l.dropWhile (fun c => c == '_')).reverse.dropWhile (fun c => c == '_')).reverse

/-- `sanitizeFilename` from src/commands/conversations.ts. -/
def sanitizeFilename (s : String) : String :=
  String.mk (trimUnderscores (collapseUsAux false (collapseWsAux false (replaceBadChars s.data))))

/-! ## `cleanHtml` (src/utils/markdown.ts)

The regex replacement chain.  Every replacement string of the source is a
fixed string: the one capture group of the chain, in the `<a href>` rule,
is dropped (the anchor-open rule's replacement is the literal `[`), and the
`$1` in the `</a>` rule's replacement refers to a group the pattern
`/<\/a>/gi` does not have, so ECMAScript `GetSubstitution` leaves it as the
literal text `$1`.  Each rule is a scanner `List Char → Option (List Char)`
returning the remainder after a match at the current position. -/

/-- Match `pat` (given lowercase) case-insensitively as a prefix; the
tag-rules of `cleanHtml` carry the `i` flag. -/
def stripLitCI : List Char → List Char → Option (List Char)
  | [], l => some l
  | _ :: _, [] => none
  | p :: ps, c :: cs => if c.toLower == p then stripLitCI ps cs else none

/-- Match `pat` case-sensitively as a prefix; the entity rules of
`cleanHtml` have no `i` flag. -/
def stripLit : List Char → List Char → Option (List Char)
  | [], l => some l
  | _ :: _, [] => none
  | p :: ps, c :: cs => if c == p then stripLit ps cs else none

/-- `/<br\s*\/?>/gi`. -/
def matchBr (l : List Char) : Option (List Char) :=
  match stripLitCI ("<br".data) l with
  | none => none
  | some l1 =>
    match l1.dropWhile isJsWs with
    | '/' :: '>' :: rest => some rest
    | '>' :: rest => some rest
    | _ => none

/-- `/<\/?div>/gi`. -/
def matchDiv (l : List Char) : Option (List Char) :=
  match stripLitCI ("<div>".data) l with
  | some r => some r
  | none => stripLitCI ("</div>".data) l

/-- `/<a\s+href="([^"]+)"[^>]*>/gi` (the capture group is unused by the
replacement, which is the fixed string `[`). -/
def matchAOpen (l : List Char) : Option (List Char) :=
  match stripLitCI ("<a".data) l with
  | none => none
  | some l1 =>
    match l1 with
    | c :: cs =>
      if isJsWs c then
        match stripLitCI ("href=\"".data) (cs.dropWhile isJsWs) with
        | none => none
        | some l2 =>
          match l2.span (fun c => c != '"') with
          | (inner, rest) =>
            match inner, rest with
            | _ :: _, '"' :: l3 =>
              match l3.dropWhile (fun c => c != '>') with
              | '>' :: r => some r
              | _ => none
            | _, _ => none
      else none
    | [] => none

/-- `/<[^>]+>/g`: the strip-remaining-tags rule. -/
def matchAnyTag (l : List Char) : Option (List Char) :=
  match l with
  | '<' :: cs =>
    match cs.span (fun c => c != '>') with
    | (inner, rest) =>
      match inner, rest with
      | _ :: _, '>' :: r => some r
      | _, _ => none
  | _ => none

/-- `/\n{3,}/g`: a run of three or more newlines. -/
def matchNl3 (l : List Char) : Option (List Char) :=
  match l with
  | '\n' :: '\n' :: '\n' :: rest => some (rest.dropWhile (fun c => c == '\n'))
  | _ => none

/-- Global replace: scan left to right, at each position try the matcher; on
a match emit the replacement and continue after the matched text (JavaScript
`String.replace` with the `g` flag; replacements are not rescanned).  All the
matchers above consume at least one character, so fuel `l.length` is enough. -/
def replRun (m : List Char → Option (List Char)) (rep : List Char) : Nat → List Char → List Char
  | _, [] => []
  | 0, l => l
  | fuel + 1, c :: cs =>
    match m (c :: cs) with
    | some rest => rep ++ replRun m rep fuel rest
    | none => c :: replRun m rep fuel cs

/-- Apply one replacement rule over the whole list. -/
def applyRuleM (m : List Char → Option (List Char)) (rep : String) (l : List Char) : List Char :=
  replRun m rep.data l.length l

/-- One case-insensitive fixed-literal rule (`/pat/gi`). -/
def applyCI (pat rep : String) (l : List Char) : List Char :=
  applyRuleM (stripLitCI pat.data) rep l

/-- One case-sensitive fixed-literal rule (`/pat/g`). -/
def applyCS (pat rep : String) (l : List Char) : List Char :=
  applyRuleM (stripLit pat.data) rep l

/-- `String.prototype.trim`. -/
def trimString (l : List Char) : List Char :=
  ((l.dropWhile isJsWs).reverse.dropWhile isJsWs).reverse

/-- `cleanHtml` from src/utils/markdown.ts: the fixed ordered chain of
replacements, then trim. -/
def cleanHtml (html : String) : String :=
  String.mk (
    html.data
    |> applyRuleM matchBr ("\n")
    |> applyCI ("</p>") ("\n\n")
    |> applyCI ("<p>") ("")
    |> applyRuleM matchDiv ("\n")
    |> applyCI ("<blockquote>") ("> ")
    |> applyCI ("</blockquote>") ("\n")
    |> applyCI ("<strong>") ("**")
    |> applyCI ("</strong>") ("**")
    |> applyCI ("<b>") ("**")
    |> applyCI ("</b>") ("**")
    |> applyCI ("<em>") ("*")
    |> applyCI ("</em>") ("*")
    |> applyCI ("<i>") ("*")
    |> applyCI ("</i>") ("*")
    |> applyCI ("<code>") ("`")
    |> applyCI ("</code>") ("`")
    |> applyCI ("<pre>") ("```\n")
    |> applyCI ("</pre>") ("\n```")
    |> applyRuleM matchAOpen ("[")
    |> applyCI ("</a>") ("]($1)")
    |> applyCI ("<ul>") ("\n")
    |> applyCI ("</ul>") ("\n")
    |> applyCI ("<ol>") ("\n")
    |> applyCI ("</ol>") ("\n")
    |> applyCI ("<li>") ("- ")
    |> applyCI ("</li>") ("\n")
    |> applyRuleM matchAnyTag ("")
    |> applyCS ("&nbsp;") (" ")
    |> applyCS ("&lt;") ("<")
    |> applyCS ("&gt;") (">")
    |> applyCS ("&amp;") ("&")
    |> applyCS ("&quot;") ("\"")
    |> applyCS ("&#39;") ("\x27")
    |> applyRuleM matchNl3 ("\n\n")
    |> trimString)

/-! ## `extractConversationId` (src/api/client.ts)

```
const patterns = [/conversation\/(\d+)/, /conversations\/(\d+)/, /^(\d+)$/];
for (const pattern of patterns) {
  const match = link.match(pattern);
  if (match) return match[1];
}
throw new Error(`Could not extract conversation ID from: ${link}`);
```
-/

/-- Leftmost match of `pat(\d+)` (case-sensitive, no anchors): scan for the
first position where the literal matches and is followed by at least one
digit; the capture is the maximal digit run. -/
def scanIdPat (pat : List Char) : List Char → Option (List Char)
  | [] => none
  | c :: cs =>
    match stripLit pat (c :: cs) with
    | some rest =>
      match rest with
      | d :: _ =>
        if d.isDigit then some (rest.takeWhile Char.isDigit) else scanIdPat pat cs
      | [] => scanIdPat pat cs
    | none => scanIdPat pat cs

/-- `/^(\d+)$/`: the whole string is one nonempty digit run. -/
def isNumericString (l : List Char) : Bool :=
  !l.isEmpty && l.all Char.isDigit

/-- `HelpScoutClient.extractConversationId`. -/
def extractConversationId (link : String) : Except String String :=
  match scanIdPat ("conversation/".data) link.data with
  | some ds => Except.ok (String.mk ds)
  | none =>
    match scanIdPat ("conversations/".data) link.data with
    | some ds => Except.ok (String.mk ds)
    | none =>
      if isNumericString link.data then Except.ok link
      else Except.error ("Could not extract conversation ID from: " ++ link)

/-! ## Data model (src/api/client.ts interfaces)

Timestamps on threads are modelled as epoch milliseconds (`Int`):
`new Date(thread.createdAt).getTime()` is the identity on this
representation.  Attachment sizes are `ℚ` (JavaScript numbers). -/

structure Person where
  id : Nat
  email : Option String
  firstName : Option String
  lastName : Option String
deriving DecidableEq

structure LinkData where
  href : String
deriving DecidableEq

/-- The `_links` field of an attachment: `{ data?: { href } }`. -/
structure AttachmentLinks where
  data : Option LinkData
deriving DecidableEq

structure Attachment where
  id : Nat
  filename : String
  mimeType : String
  width : Option Nat
  height : Option Nat
  size : ℚ
  state : String
  _links : Option AttachmentLinks
deriving DecidableEq

structure ThreadEmbedded where
  attachments : List Attachment
deriving DecidableEq

structure ThreadAction where
  type : String
  text : Option String
deriving DecidableEq

structure ThreadSource where
  type : String
  via : String
deriving DecidableEq

structure Thread where
  id : Nat
  type : String
  status : String
  state : String
  action : Option ThreadAction
  body : String
  source : Option ThreadSource
  customer : Option Person
  createdBy : Option Person
  createdAt : Int
  attachments : Option (List Attachment)
  _embedded : Option ThreadEmbedded
deriving DecidableEq

structure Mailbox where
  id : Nat
  name : String
deriving DecidableEq

structure ConversationEmbedded where
  threads : List Thread
deriving DecidableEq

structure Conversation where
  id : Nat
  number : Nat
  subject : String
  status : String
  createdAt : String
  modifiedAt : String
  closedAt : Option String
  mailbox : Option Mailbox
  createdBy : Option Person
  primaryCustomer : Option Person
  threads : Option (List Thread)
  _embedded : Option ConversationEmbedded
deriving DecidableEq

/-! ## Dual-location accessors

The expression repeated at every call site is
`conversation._embedded?.threads || conversation.threads || []` (and the
analogue for attachments on a thread).  A JavaScript array is always truthy
(even when empty), so whenever `_embedded` is present its `threads` /
`attachments` array is the result. -/

/-- `conversation._embedded?.threads || conversation.threads || []`. -/
def threadsOf (c : Conversation) : List Thread :=
  match c._embedded with
  | some e => e.threads
  | none => c.threads.getD []

/-- `thread._embedded?.attachments || thread.attachments || []`. -/
def attachmentsOf (t : Thread) : List Attachment :=
  match t._embedded with
  | some e => e.attachments
  | none => t.attachments.getD []

/-! ## `formatFileSize` (src/utils/markdown.ts)

The running `size` is an exact fraction of `bytes`; it is represented by an
explicit numerator/denominator pair of integers (with the denominator kept
positive) so that every operation reduces in the kernel — `ℚ`'s normalising
arithmetic does not. -/

/-- `Math.floor((n / d) * 10 + 0.5)` for `d > 0`: the integer the ECMAScript
`toFixed(1)` specification picks for a nonnegative value (ties take the
larger integer), as `⌊(20n + d) / (2d)⌋`. -/
def jsRound1 (n d : Int) : Int := Int.fdiv (20 * n + d) (2 * d)

/-- `Number.prototype.toFixed(1)` on the fraction `n / d` (`d > 0`) per the
ECMAScript specification: sign split, then the integer closest to ten times
the absolute value, ties picking the larger integer. -/
def toFixed1Frac (n d : Int) : String :=
  if n < 0 then
    "-" ++ toString ((jsRound1 (-n) d).toNat / 10) ++ "." ++
      toString ((jsRound1 (-n) d).toNat % 10)
  else
    toString ((jsRound1 n d).toNat / 10) ++ "." ++
      toString ((jsRound1 n d).toNat % 10)

/-- The unit array `['B', 'KB', 'MB', 'GB']`. -/
def fileSizeUnits : List String := ["B", "KB", "MB", "GB"]

/-- The `while (size >= 1024 && unitIndex < units.length - 1)` loop on the
fraction `n / d`: `size >= 1024` is `1024·d ≤ n`, and `size /= 1024`
multiplies the denominator by 1024.  The loop body runs at most
`3 - unitIndex` times, which the fuel makes structural. -/
def sizeLoopAux : Nat → Int → Int → Nat → Int × Int × Nat
  | 0, n, d, i => (n, d, i)
  | fuel + 1, n, d, i =>
    if 1024 * d ≤ n ∧ i < 3 then sizeLoopAux fuel n (d * 1024) (i + 1)
    else (n, d, i)

/-- `formatFileSize` from src/utils/markdown.ts. -/
def formatFileSize (bytes : ℚ) : String :=
  let r := sizeLoopAux 3 bytes.num (bytes.den : Int) 0
  toFixed1Frac r.1 r.2.1 ++ " " ++ fileSizeUnits.getD r.2.2 ("B")

/-! ## `calculateThreadStatistics` (src/utils/markdown.ts) -/

/-- The thread categories distinguished by the statistics loop, in the order
the code tests them: `note` first, then `customer` (type `'customer'` or a
`customer` field present), then `reply` (type `'reply'` or `'message'`). -/
inductive TCat where
  | note
  | customer
  | reply
  | other
deriving DecidableEq

def threadCat (t : Thread) : TCat :=
  if t.type = "note" then TCat.note
  else if t.type = "customer" ∨ t.customer.isSome then TCat.customer
  else if t.type = "reply" ∨ t.type = "message" then TCat.reply
  else TCat.other

structure ThreadStatistics where
  totalThreads : Nat
  customerMessages : Nat
  supportReplies : Nat
  internalNotes : Nat
  totalAttachments : Nat
  responseTime : Option String
deriving DecidableEq

/-- The loop state of `calculateThreadStatistics`. -/
structure StatsAcc where
  customerMessages : Nat
  supportReplies : Nat
  internalNotes : Nat
  totalAttachments : Nat
  firstCustomerMessageTime : Option Int
  firstSupportReplyTime : Option Int
deriving DecidableEq

def initStatsAcc : StatsAcc := ⟨0, 0, 0, 0, none, none⟩

/-- One iteration of the `for (const thread of threads)` loop. -/
def stepStats (acc : StatsAcc) (t : Thread) : StatsAcc :=
  let acc1 := { acc with totalAttachments := acc.totalAttachments + (attachmentsOf t).length }
  match threadCat t with
  | TCat.note => { acc1 with internalNotes := acc1.internalNotes + 1 }
  | TCat.customer =>
    { acc1 with
      customerMessages := acc1.customerMessages + 1
      firstCustomerMessageTime :=
        match acc1.firstCustomerMessageTime with
        | none => some t.createdAt
        | some x => some x }
  | TCat.reply =>
    { acc1 with
      supportReplies := acc1.supportReplies + 1
      firstSupportReplyTime :=
        match acc1.firstSupportReplyTime, acc1.firstCustomerMessageTime with
        | none, some _ => some t.createdAt
        | fsrt, _ => fsrt }
  | TCat.other => acc1

/-- The pluralisation `` `${n} day${n !== 1 ? 's' : ''}` `` used by the
response-time string. -/
def pluralS (n : Int) : String := if n ≠ 1 then "s" else ""

/-- The response-time rendering: `Math.floor` is `Int.fdiv`, the JavaScript
`%` is the truncating `Int.tmod`. -/
def renderDuration (diffMs : Int) : String :=
  let diffMins := Int.fdiv diffMs 60000
  let diffHours := Int.fdiv diffMins 60
  let diffDays := Int.fdiv diffHours 24
  if 0 < diffDays then
    let h := Int.tmod diffHours 24
    toString diffDays ++ " day" ++ pluralS diffDays ++ " " ++ toString h ++ " hour" ++ pluralS h
  else if 0 < diffHours then
    let m := Int.tmod diffMins 60
    toString diffHours ++ " hour" ++ pluralS diffHours ++ " " ++ toString m ++ " minute" ++ pluralS m
  else
    toString diffMins ++ " minute" ++ pluralS diffMins

/-- `calculateThreadStatistics` from src/utils/markdown.ts. -/
def calculateThreadStatistics (threads : List Thread) : ThreadStatistics :=
  let acc := threads.foldl stepStats initStatsAcc
  { totalThreads := threads.length
    customerMessages := acc.customerMessages
    supportReplies := acc.supportReplies
    internalNotes := acc.internalNotes
    totalAttachments := acc.totalAttachments
    responseTime :=
      match acc.firstCustomerMessageTime, acc.firstSupportReplyTime with
      | some a, some b => some (renderDuration (b - a))
      | _, _ => none }

/-- The `## Summary` block of `conversationToMarkdown` (lines 14–24): the
attachment line only when the count is positive, the first-response line
only when `stats.responseTime` is truthy (a non-null, nonempty string). -/
def summaryLines (stats : ThreadStatistics) : List String :=
  ["## Summary",
   "- **Total Threads**: " ++ toString stats.totalThreads,
   "- **Customer Messages**: " ++ toString stats.customerMessages,
   "- **Support Replies**: " ++ toString stats.supportReplies,
   "- **Internal Notes**: " ++ toString stats.internalNotes]
  ++ (if 0 < stats.totalAttachments then ["- **Attachments**: " ++ toString stats.totalAttachments] else [])
  ++ (match stats.responseTime with
      | some rt => if rt = "" then [] else ["- **First Response Time**: " ++ rt]
      | none => [])

/-! ## The attachment-download loop of `downloadConversation`
(src/commands/conversations.ts) and the attachment lines of `formatThread`
(src/utils/markdown.ts)

A download attempt for one attachment can fail because the attachment has no
`_links.data.href` (the client throws before fetching) or because the fetch
or the file write fails; the oracle `fetchOk` abstracts the latter.  The
`try/catch` around the loop body logs and continues, so a failure only means
the path index gains no entry for that attachment. -/

/-- `downloadAttachment` requires `attachment._links?.data?.href` to be
truthy (a missing or empty `href` string throws). -/
def hasDownloadLink (a : Attachment) : Bool :=
  match a._links with
  | some links =>
    match links.data with
    | some d => d.href != ""
    | none => false
  | none => false

/-- One attachment's download attempt succeeds iff it has a download link
and the fetch/write oracle allows the pair `(thread.id, attachment.id)`. -/
def downloadSucceeds (fetchOk : Nat → Nat → Bool) (t : Thread) (a : Attachment) : Bool :=
  hasDownloadLink a && fetchOk t.id a.id

/-- The path-index key `` `${thread.id}-${attachment.id}` ``. -/
def attachmentKey (t : Thread) (a : Attachment) : String :=
  toString t.id ++ "-" ++ toString a.id

/-- The recorded relative path
`` `./attachments/${thread.id}_${attachment.id}_${sanitizedFilename}` ``. -/
def attachmentRelPath (t : Thread) (a : Attachment) : String :=
  "./attachments/" ++ toString t.id ++ "_" ++ toString a.id ++ "_" ++ sanitizeFilename a.filename

/-- `Map.get` on the path index; `Map.set` overwrites, so the last entry
with the key wins. -/
def lookupPath (paths : List (String × String)) (key : String) : Option String :=
  (paths.reverse.find? (fun kv => kv.1 == key)).map (fun kv => kv.2)

/-- The nested `for (const thread of threads) { for (const attachment of
attachments) { try ... catch ... } }` loop, collecting `attachmentPaths`. -/
def buildAttachmentPaths (threads : List Thread) (fetchOk : Nat → Nat → Bool) :
    List (String × String) :=
  threads.foldl (fun acc t =>
    (attachmentsOf t).foldl (fun acc2 a =>
      if downloadSucceeds fetchOk t a then acc2 ++ [(attachmentKey t a, attachmentRelPath t a)]
      else acc2) acc) []

/-- One attachment's line in `formatThread`: a Markdown link when the path
index knows a local path, the bare filename otherwise. -/
def attachmentLine (paths : List (String × String)) (t : Thread) (a : Attachment) : String :=
  match lookupPath paths (attachmentKey t a) with
  | some p => "- [" ++ a.filename ++ "](" ++ p ++ ") (" ++ formatFileSize a.size ++ ")"
  | none => "- " ++ a.filename ++ " (" ++ formatFileSize a.size ++ ")"

/-- The `totalAttachments` counter computed before any download and written
to metadata.json as `attachmentCount`. -/
def metadataAttachmentCount (threads : List Thread) : Nat :=
  threads.foldl (fun n t => n + (attachmentsOf t).length) 0

/-! ## The OAuth manager (src/auth/oauth.ts)

The token file, the clock and the token endpoint are modelled by an explicit
environment.  JSON numbers are modelled as integers (the fields zod checks
with `z.number()` are epoch milliseconds and seconds). -/

/-- A JSON value, as produced by `JSON.parse`. -/
inductive Json where
  | null : Json
  | bool : Bool → Json
  | num : Int → Json
  | str : String → Json
  | arr : List Json → Json
  | obj : List (String × Json) → Json

/-- Property lookup on a parsed JSON object; `JSON.parse` keeps the last of
duplicate keys, so the last binding wins. -/
def jLookup (fields : List (String × Json)) (key : String) : Option Json :=
  (fields.reverse.find? (fun kv => kv.1 == key)).map (fun kv => kv.2)

/-- The zod `TokenSchema` record: all five fields required. -/
structure TokenData where
  access_token : String
  refresh_token : String
  token_type : String
  expires_in : Int
  expires_at : Int
deriving DecidableEq

/-- `z.string()` on a JSON value. -/
def asStr : Json → Option String
  | Json.str s => some s
  | _ => none

/-- `z.number()` on a JSON value. -/
def asNum : Json → Option Int
  | Json.num n => some n
  | _ => none

/-- `TokenSchema.parse` on a parsed JSON value: `none` when the value is not
an object or any of the five fields is missing or of the wrong type. -/
def parseTokens : Json → Option TokenData
  | Json.obj fields =>
    ((jLookup fields ("access_token")).bind asStr).bind (fun a =>
    ((jLookup fields ("refresh_token")).bind asStr).bind (fun r =>
    ((jLookup fields ("token_type")).bind asStr).bind (fun ty =>
    ((jLookup fields ("expires_in")).bind asNum).bind (fun ei =>
    ((jLookup fields ("expires_at")).bind asNum).map (fun ea =>
      ⟨a, r, ty, ei, ea⟩)))))
  | _ => none

/-- `JSON.stringify` of a token record (as `saveTokens` writes it). -/
def encodeTokens (t : TokenData) : Json :=
  Json.obj [("access_token", Json.str t.access_token),
            ("refresh_token", Json.str t.refresh_token),
            ("token_type", Json.str t.token_type),
            ("expires_in", Json.num t.expires_in),
            ("expires_at", Json.num t.expires_at)]

/-- The state of the token file: absent, present but not valid JSON, or
holding a parsed JSON value. -/
inductive FileState where
  | missing : FileState
  | invalid : FileState
  | stored : Json → FileState

/-- `loadTokens`: `null` when the file is missing; the `try/catch` turns a
JSON parse error or a zod schema failure into `null` as well. -/
def loadTokens : FileState → Option TokenData
  | FileState.missing => none
  | FileState.invalid => none
  | FileState.stored j => parseTokens j

/-- The token-endpoint response body (`data` in the source); the server may
also send other fields, which the spread copies, but only these five
matter and `expires_at` is overwritten after the spread. -/
structure TokenResp where
  access_token : String
  refresh_token : String
  token_type : String
  expires_in : Int
deriving DecidableEq

/-- The environment of one `getValidToken` / token-exchange call: the token
file, the clock reading at the expiry check, the clock reading at
`expires_at: Date.now() + data.expires_in * 1000`, and the (abstract)
token-endpoint behaviour. -/
structure OAuthEnv where
  file : FileState
  nowCheck : Int
  nowSave : Int
  refreshOk : Bool
  refreshResp : TokenResp
  exchangeOk : Bool
  exchangeResp : TokenResp

/-- `{ ...data, expires_at: Date.now() + data.expires_in * 1000 }`. -/
def mkSavedToken (resp : TokenResp) (now : Int) : TokenData :=
  ⟨resp.access_token, resp.refresh_token, resp.token_type, resp.expires_in,
   now + resp.expires_in * 1000⟩

/-- `OAuthManager.refreshAccessToken`: reload the stored record, require a
truthy `refresh_token`, make one POST to the token endpoint, compute
`expires_at` from the clock at save time, persist and return.  The result is
(returned record, token file afterwards, number of token-endpoint calls). -/
def refreshAccessToken (env : OAuthEnv) : Except String (TokenData × FileState × Nat) :=
  match loadTokens env.file with
  | none => Except.error ("No refresh token available. Please re-authenticate.")
  | some tokens =>
    if tokens.refresh_token = "" then
      Except.error ("No refresh token available. Please re-authenticate.")
    else if env.refreshOk then
      let tok := mkSavedToken env.refreshResp env.nowSave
      Except.ok (tok, FileState.stored (encodeTokens tok), 1)
    else Except.error ("Failed to refresh token")

/-- `OAuthManager.exchangeCodeForToken` (the `code` is forwarded to the
endpoint, abstracted by `exchangeOk`/`exchangeResp`). -/
def exchangeCodeForToken (env : OAuthEnv) (_code : String) : Except String (TokenData × FileState × Nat) :=
  if env.exchangeOk then
    let tok := mkSavedToken env.exchangeResp env.nowSave
    Except.ok (tok, FileState.stored (encodeTokens tok), 1)
  else Except.error ("Failed to exchange code for token")

/-- `OAuthManager.getValidToken`: load; fail when no record; refresh when
`Date.now() >= expires_at - 60000`; otherwise return the cached token.  The
result carries the token file afterwards and the number of refresh calls. -/
def getValidToken (env : OAuthEnv) : Except String (String × FileState × Nat) :=
  match loadTokens env.file with
  | none => Except.error ("No tokens found. Please authenticate first.")
  | some tokens =>
    if tokens.expires_at - 60000 ≤ env.nowCheck then
      (refreshAccessToken env).map (fun r => (r.1.access_token, r.2.1, r.2.2))
    else Except.ok (tokens.access_token, env.file, 0)

/-! ## Shared sample data for concrete instances -/

/-- A thread with the given id, type and timestamp and no other payload. -/
def sampleThread (n : Nat) (ty : String) (ts : Int) : Thread :=
  ⟨n, ty, "active", "published", none, "", none, none, none, ts, none, none⟩

/-! # Theorems

## C1: the anchor rule of `cleanHtml` -/

/-- C1: `cleanHtml` does not rewrite `<a href="URL">text</a>` to
`[text](URL)`.  The anchor-open rule's replacement is the fixed string `[`
(its capture group is dropped) and the `</a>` rule's replacement `]($1)`
refers to a capture group the pattern `/<\/a>/gi` does not have, so the
output ends in the literal text `($1)`: the code contradicts the evident
intent of its own capture group. -/
theorem cleanHtml_anchor_dollar_one :
    cleanHtml ("<a href=\"https://example.com\">link</a>") = "[link]($1)" ∧
    cleanHtml ("<a href=\"https://example.com\">link</a>") ≠ "[link](https://example.com)" :=
  ⟨by decide, by decide⟩

/-! ## C2: the dual-location accessors -/

/-- A conversation whose `_embedded.threads` and direct `threads` fields are
both present and different. -/
def cexConversation : Conversation :=
  ⟨1, 100, "s", "active", "", "", none, none, none, none,
   some [sampleThread 2 "customer" 0], some ⟨[sampleThread 1 "customer" 0]⟩⟩

/-- C2 counterexample: when both locations are present, the accessor returns
the embedded field, not the direct field as the claim states. -/
theorem threadsOf_prefers_embedded_cex :
    cexConversation._embedded = some ⟨[sampleThread 1 "customer" 0]⟩ ∧
    cexConversation.threads = some [sampleThread 2 "customer" 0] ∧
    threadsOf cexConversation = [sampleThread 1 "customer" 0] ∧
    threadsOf cexConversation ≠ [sampleThread 2 "customer" 0] :=
  ⟨rfl, rfl, rfl, by decide⟩

/-- C2 (amended): the accessors prefer the embedded-resource field when it
is present (even when the direct field is also present), fall back to the
direct field otherwise, and default to the empty sequence when both are
absent. -/
theorem threads_attachments_accessor_amended :
    (∀ (c : Conversation) (e : ConversationEmbedded),
       c._embedded = some e → threadsOf c = e.threads) ∧
    (∀ (c : Conversation) (l : List Thread),
       c._embedded = none → c.threads = some l → threadsOf c = l) ∧
    (∀ c : Conversation, c._embedded = none → c.threads = none → threadsOf c = []) ∧
    (∀ (t : Thread) (e : ThreadEmbedded),
       t._embedded = some e → attachmentsOf t = e.attachments) ∧
    (∀ (t : Thread) (l : List Attachment),
       t._embedded = none → t.attachments = some l → attachmentsOf t = l) ∧
    (∀ t : Thread, t._embedded = none → t.attachments = none → attachmentsOf t = []) := by
  refine ⟨?_, ?_, ?_, ?_, ?_, ?_⟩
  · intro c e h; simp [threadsOf, h]
  · intro c l h h2; simp [threadsOf, h, h2]
  · intro c h h2; simp [threadsOf, h, h2]
  · intro t e h; simp [attachmentsOf, h]
  · intro t l h h2; simp [attachmentsOf, h, h2]
  · intro t h h2; simp [attachmentsOf, h, h2]

/-! ## C3, C7, C10: the OAuth manager -/

/-- A persisted record read back is the record itself. -/
theorem parseTokens_encodeTokens (t : TokenData) : parseTokens (encodeTokens t) = some t := rfl

/-- C3: with a persisted record present, `getValidToken` returns the cached
access token with no refresh call while `now < expires_at - 60000`, and on
`now ≥ expires_at - 60000` (with the endpoint reachable and a refresh token
present) makes exactly one refresh call, persists the refreshed record and
returns its access token. -/
theorem getValidToken_cache_and_refresh (env : OAuthEnv) (t : TokenData)
    (hload : loadTokens env.file = some t) :
    (env.nowCheck < t.expires_at - 60000 →
       getValidToken env = Except.ok (t.access_token, env.file, 0)) ∧
    (t.expires_at - 60000 ≤ env.nowCheck → env.refreshOk = true → t.refresh_token ≠ "" →
       getValidToken env =
         Except.ok ((mkSavedToken env.refreshResp env.nowSave).access_token,
           FileState.stored (encodeTokens (mkSavedToken env.refreshResp env.nowSave)), 1) ∧
       loadTokens (FileState.stored (encodeTokens (mkSavedToken env.refreshResp env.nowSave))) =
         some (mkSavedToken env.refreshResp env.nowSave)) := by
  constructor
  · intro hlt
    unfold getValidToken
    rw [hload]
    dsimp only
    rw [if_neg (not_le.mpr hlt)]
  · intro hge hok hrt
    refine ⟨?_, parseTokens_encodeTokens _⟩
    unfold getValidToken
    rw [hload]
    dsimp only
    rw [if_pos hge]
    unfold refreshAccessToken
    rw [hload]
    dsimp only
    rw [if_neg hrt, hok, if_pos rfl]
    rfl

/-- The concrete environment of the C3 witness: a record expiring at epoch
millisecond 1000000, checked at 2000000, with a reachable endpoint. -/
def witnessEnv : OAuthEnv :=
  ⟨FileState.stored (encodeTokens ⟨"oldtok", "refresh", "bearer", 3600, 1000000⟩),
   2000000, 2000005, true, ⟨"newtok", "r2", "bearer", 7200⟩,
   true, ⟨"xtok", "xr", "bearer", 60⟩⟩

/-- C3 witness: the refresh branch at the concrete environment. -/
theorem getValidToken_cache_and_refresh_witness :
    getValidToken witnessEnv =
      Except.ok ((mkSavedToken witnessEnv.refreshResp witnessEnv.nowSave).access_token,
        FileState.stored (encodeTokens (mkSavedToken witnessEnv.refreshResp witnessEnv.nowSave)), 1) ∧
    loadTokens (FileState.stored (encodeTokens (mkSavedToken witnessEnv.refreshResp witnessEnv.nowSave))) =
      some (mkSavedToken witnessEnv.refreshResp witnessEnv.nowSave) :=
  (getValidToken_cache_and_refresh witnessEnv ⟨"oldtok", "refresh", "bearer", 3600, 1000000⟩
    rfl).2 (by decide) rfl (by decide)

/-- C7: every record the store persists — whether written by the refresh
flow or by the authorization-code exchange — satisfies
`expires_at = issued_at + expires_in * 1000`, where `issued_at` is the clock
reading at save time; the server's relative `expires_in` is never stored as
an absolute expiry on its own. -/
theorem persisted_expires_at_invariant (env : OAuthEnv) (code : String) :
    (∀ tok f n, refreshAccessToken env = Except.ok (tok, f, n) →
       f = FileState.stored (encodeTokens tok) ∧
       tok.expires_at = env.nowSave + tok.expires_in * 1000) ∧
    (∀ tok f n, exchangeCodeForToken env code = Except.ok (tok, f, n) →
       f = FileState.stored (encodeTokens tok) ∧
       tok.expires_at = env.nowSave + tok.expires_in * 1000) := by
  constructor
  · intro tok f n h
    unfold refreshAccessToken at h
    cases hload : loadTokens env.file with
    | none => rw [hload] at h; cases h
    | some t =>
      rw [hload] at h
      dsimp only at h
      by_cases hrt : t.refresh_token = ""
      · rw [if_pos hrt] at h; cases h
      · rw [if_neg hrt] at h
        by_cases hok : env.refreshOk
        · rw [hok, if_pos rfl] at h
          simp only [Except.ok.injEq, Prod.mk.injEq] at h
          obtain ⟨h1, h2, h3⟩ := h
          subst h1; subst h2
          exact ⟨rfl, rfl⟩
        · simp only [Bool.not_eq_true] at hok
          rw [hok] at h; simp at h
  · intro tok f n h
    unfold exchangeCodeForToken at h
    by_cases hok : env.exchangeOk
    · rw [hok, if_pos rfl] at h
      simp only [Except.ok.injEq, Prod.mk.injEq] at h
      obtain ⟨h1, h2, h3⟩ := h
      subst h1; subst h2
      exact ⟨rfl, rfl⟩
    · simp only [Bool.not_eq_true] at hok
      rw [hok] at h; simp at h

/-- A successful `z.string()` check means the value was that string. -/
theorem bindStr_some {o : Option Json} {s : String} (h : o.bind asStr = some s) :
    o = some (Json.str s) := by
  cases o with
  | none => exact absurd h (by simp)
  | some j =>
    rw [Option.some_bind] at h
    cases j <;> simp only [asStr] at h <;> try exact Option.noConfusion h
    rw [Option.some.injEq] at h
    rw [h]

/-- A successful `z.number()` check means the value was that number. -/
theorem bindNum_some {o : Option Json} {n : Int} (h : o.bind asNum = some n) :
    o = some (Json.num n) := by
  cases o with
  | none => exact absurd h (by simp)
  | some j =>
    rw [Option.some_bind] at h
    cases j <;> simp only [asNum] at h <;> try exact Option.noConfusion h
    rw [Option.some.injEq] at h
    rw [h]

/-- Inversion of a successful `TokenSchema.parse`: the value was an object
holding all five fields with the declared types. -/
theorem parseTokens_eq_some {j : Json} {t : TokenData} (h : parseTokens j = some t) :
    ∃ fields, j = Json.obj fields ∧
      jLookup fields ("access_token") = some (Json.str t.access_token) ∧
      jLookup fields ("refresh_token") = some (Json.str t.refresh_token) ∧
      jLookup fields ("token_type") = some (Json.str t.token_type) ∧
      jLookup fields ("expires_in") = some (Json.num t.expires_in) ∧
      jLookup fields ("expires_at") = some (Json.num t.expires_at) := by
  cases j with
  | obj fields =>
    refine ⟨fields, rfl, ?_⟩
    simp only [parseTokens] at h
    rw [Option.bind_eq_some] at h
    obtain ⟨a, hA, h⟩ := h
    rw [Option.bind_eq_some] at h
    obtain ⟨r, hR, h⟩ := h
    rw [Option.bind_eq_some] at h
    obtain ⟨ty, hTy, h⟩ := h
    rw [Option.bind_eq_some] at h
    obtain ⟨ei, hEi, h⟩ := h
    rw [Option.map_eq_some'] at h
    obtain ⟨ea, hEa, h⟩ := h
    subst h
    exact ⟨bindStr_some hA, bindStr_some hR, bindStr_some hTy, bindNum_some hEi, bindNum_some hEa⟩
  | null => exact Option.noConfusion h
  | bool b => exact Option.noConfusion h
  | num n => exact Option.noConfusion h
  | str s => exact Option.noConfusion h
  | arr xs => exact Option.noConfusion h

/-- C10: loading the persisted record is total and validated — a missing
file, unparsable JSON, a non-object value or a missing field all yield
`none` (so `getValidToken` fails with the no-tokens error instead of using a
partial record), and any record returned carries all five `TokenRecord`
fields with the correct types. -/
theorem loadTokens_total_validated :
    loadTokens FileState.missing = none ∧
    loadTokens FileState.invalid = none ∧
    (∀ fields : List (String × Json),
       (jLookup fields ("access_token") = none ∨ jLookup fields ("refresh_token") = none ∨
        jLookup fields ("token_type") = none ∨ jLookup fields ("expires_in") = none ∨
        jLookup fields ("expires_at") = none) →
       loadTokens (FileState.stored (Json.obj fields)) = none) ∧
    (∀ j : Json, (∀ fields, j ≠ Json.obj fields) → loadTokens (FileState.stored j) = none) ∧
    (∀ (j : Json) (t : TokenData), loadTokens (FileState.stored j) = some t →
       ∃ fields, j = Json.obj fields ∧
         jLookup fields ("access_token") = some (Json.str t.access_token) ∧
         jLookup fields ("refresh_token") = some (Json.str t.refresh_token) ∧
         jLookup fields ("token_type") = some (Json.str t.token_type) ∧
         jLookup fields ("expires_in") = some (Json.num t.expires_in) ∧
         jLookup fields ("expires_at") = some (Json.num t.expires_at)) ∧
    (∀ env : OAuthEnv, loadTokens env.file = none →
       getValidToken env = Except.error ("No tokens found. Please authenticate first.")) := by
  refine ⟨rfl, rfl, ?_, ?_, ?_, ?_⟩
  · intro fields h
    show parseTokens (Json.obj fields) = none
    cases hres : parseTokens (Json.obj fields) with
    | none => rfl
    | some t =>
      obtain ⟨fields', hf, h1, h2, h3, h4, h5⟩ := parseTokens_eq_some hres
      injection hf with hf
      subst hf
      rcases h with h | h | h | h | h
      · rw [h] at h1; exact Option.noConfusion h1
      · rw [h] at h2; exact Option.noConfusion h2
      · rw [h] at h3; exact Option.noConfusion h3
      · rw [h] at h4; exact Option.noConfusion h4
      · rw [h] at h5; exact Option.noConfusion h5
  · intro j hj
    cases j with
    | obj fields => exact absurd rfl (hj fields)
    | null => rfl
    | bool b => rfl
    | num n => rfl
    | str s => rfl
    | arr xs => rfl
  · intro j t h
    exact parseTokens_eq_some (show parseTokens j = some t from h)
  · intro env h
    unfold getValidToken
    rw [h]

/-! ## C6: `extractConversationId` -/

/-- Whatever `scanIdPat` captures is a nonempty run of digits. -/
theorem scanIdPat_digits {pat : List Char} :
    ∀ {l ds : List Char}, scanIdPat pat l = some ds → ds ≠ [] ∧ ∀ c ∈ ds, c.isDigit := by
  intro l
  induction l with
  | nil => intro ds h; exact Option.noConfusion h
  | cons c cs ih =>
    intro ds h
    unfold scanIdPat at h
    cases hs : stripLit pat (c :: cs) with
    | none => rw [hs] at h; exact ih h
    | some rest =>
      rw [hs] at h
      dsimp only at h
      cases rest with
      | nil => exact ih h
      | cons d rest' =>
        dsimp only at h
        by_cases hd : d.isDigit
        · rw [if_pos hd] at h
          rw [Option.some.injEq] at h
          subst h
          rw [List.takeWhile_cons, if_pos hd]
          refine ⟨by simp, ?_⟩
          intro x hx
          rcases List.mem_cons.mp hx with hx | hx
          · subst hx; exact hd
          · exact List.mem_takeWhile_imp hx
        · rw [if_neg hd] at h; exact ih h

/-- A pattern starting with a non-digit never matches inside a digit-only
string. -/
theorem scanIdPat_none_of_digits {pat : List Char}
    (hne : pat ≠ []) (hp : ∀ q, pat.head? = some q → q.isDigit = false) :
    ∀ {l : List Char}, (∀ c ∈ l, c.isDigit) → scanIdPat pat l = none := by
  intro l
  induction l with
  | nil => intro _; rfl
  | cons c cs ih =>
    intro hl
    cases pat with
    | nil => exact absurd rfl hne
    | cons p ps =>
      have hpd : p.isDigit = false := hp p rfl
      have hcd : c.isDigit := hl c (List.mem_cons_self c cs)
      have hcp : (c == p) = false := by
        apply beq_eq_false_iff_ne.mpr
        intro hcontra
        rw [hcontra] at hcd
        rw [hcd] at hpd
        exact Bool.noConfusion hpd
      unfold scanIdPat
      have hstrip : stripLit (p :: ps) (c :: cs) = none := by
        unfold stripLit
        rw [hcp]
        rfl
      rw [hstrip]
      exact ih (fun x hx => hl x (List.mem_cons_of_mem c hx))

/-- A digit-only nonempty string falls through the two URL patterns and is
returned unchanged by the `/^(\d+)$/` pattern. -/
theorem extract_numeric_ok (s : String) (h : isNumericString s.data = true) :
    extractConversationId s = Except.ok s := by
  have hall : ∀ c ∈ s.data, c.isDigit := by
    have := (Bool.and_eq_true _ _).mp h
    exact fun c hc => List.all_eq_true.mp this.2 c hc
  have h1 : scanIdPat ("conversation/".data) s.data = none := by
    apply scanIdPat_none_of_digits (by decide) ?_ hall
    intro q hq
    have : ("conversation/".data).head? = some 'c' := rfl
    rw [this, Option.some.injEq] at hq
    subst hq
    decide
  have h2 : scanIdPat ("conversations/".data) s.data = none := by
    apply scanIdPat_none_of_digits (by decide) ?_ hall
    intro q hq
    have : ("conversations/".data).head? = some 'c' := rfl
    rw [this, Option.some.injEq] at hq
    subst hq
    decide
  unfold extractConversationId
  rw [h1, h2, if_pos h]

/-- C6: `extractConversationId` returns a bare numeric string unchanged, is
idempotent on its outputs, extracts `123456789` from
`https://host/conversation/123456789/thread/1` (patterns tried in order,
first match winning), and fails with the unrecognized-reference error when
no pattern matches. -/
theorem extractConversationId_spec :
    (∀ s : String, isNumericString s.data = true → extractConversationId s = Except.ok s) ∧
    extractConversationId ("https://host/conversation/123456789/thread/1") =
      Except.ok ("123456789") ∧
    (∀ s r : String, extractConversationId s = Except.ok r →
       extractConversationId r = Except.ok r) ∧
    (∀ s : String, scanIdPat ("conversation/".data) s.data = none →
       scanIdPat ("conversations/".data) s.data = none → isNumericString s.data = false →
       extractConversationId s =
         Except.error ("Could not extract conversation ID from: " ++ s)) := by
  refine ⟨extract_numeric_ok, rfl, ?_, ?_⟩
  · intro s r h
    unfold extractConversationId at h
    cases h1 : scanIdPat ("conversation/".data) s.data with
    | some ds =>
      rw [h1] at h
      rw [Except.ok.injEq] at h
      subst h
      obtain ⟨hne, hdig⟩ := scanIdPat_digits h1
      apply extract_numeric_ok
      show (!(String.mk ds).data.isEmpty && (String.mk ds).data.all Char.isDigit) = true
      rw [Bool.and_eq_true]
      constructor
      · cases ds with
        | nil => exact absurd rfl hne
        | cons x xs => rfl
      · exact List.all_eq_true.mpr (fun c hc => hdig c hc)
    | none =>
      rw [h1] at h
      cases h2 : scanIdPat ("conversations/".data) s.data with
      | some ds =>
        rw [h2] at h
        rw [Except.ok.injEq] at h
        subst h
        obtain ⟨hne, hdig⟩ := scanIdPat_digits h2
        apply extract_numeric_ok
        show (!(String.mk ds).data.isEmpty && (String.mk ds).data.all Char.isDigit) = true
        rw [Bool.and_eq_true]
        constructor
        · cases ds with
          | nil => exact absurd rfl hne
          | cons x xs => rfl
        · exact List.all_eq_true.mpr (fun c hc => hdig c hc)
      | none =>
        rw [h2] at h
        by_cases hnum : isNumericString s.data = true
        · rw [if_pos hnum] at h
          rw [Except.ok.injEq] at h
          subst h
          exact extract_numeric_ok s hnum
        · rw [if_neg hnum] at h
          exact Except.noConfusion h
  · intro s h1 h2 h3
    unfold extractConversationId
    rw [h1, h2, if_neg (by rw [h3]; exact Bool.noConfusion)]

/-! ## C8: `sanitizeFilename` -/

/-- No two adjacent underscores. -/
def noUU (a b : Char) : Prop := ¬(a = '_' ∧ b = '_')

/-- Every character emitted by the whitespace-collapsing pass is an
underscore or a character of the input. -/
theorem collapseWsAux_mem {c : Char} :
    ∀ (l : List Char) (b : Bool), c ∈ collapseWsAux b l → c = '_' ∨ c ∈ l := by
  intro l
  induction l with
  | nil => intro b h; cases b <;> exact absurd h (List.not_mem_nil c)
  | cons a as ih =>
    intro b h
    cases b <;> unfold collapseWsAux at h <;> by_cases hws : isJsWs a = true
    · rw [if_pos hws] at h
      rcases List.mem_cons.mp h with h1 | h1
      · exact Or.inl h1
      · rcases ih true h1 with h2 | h2
        · exact Or.inl h2
        · exact Or.inr (List.mem_cons_of_mem a h2)
    · rw [if_neg hws] at h
      rcases List.mem_cons.mp h with h1 | h1
      · exact Or.inr (List.mem_cons.mpr (Or.inl h1))
      · rcases ih false h1 with h2 | h2
        · exact Or.inl h2
        · exact Or.inr (List.mem_cons_of_mem a h2)
    · rw [if_pos hws] at h
      rcases ih true h with h2 | h2
      · exact Or.inl h2
      · exact Or.inr (List.mem_cons_of_mem a h2)
    · rw [if_neg hws] at h
      rcases List.mem_cons.mp h with h1 | h1
      · exact Or.inr (List.mem_cons.mpr (Or.inl h1))
      · rcases ih false h1 with h2 | h2
        · exact Or.inl h2
        · exact Or.inr (List.mem_cons_of_mem a h2)

/-- Every character emitted by the underscore-collapsing pass is an
underscore or a character of the input. -/
theorem collapseUsAux_mem {c : Char} :
    ∀ (l : List Char) (b : Bool), c ∈ collapseUsAux b l → c = '_' ∨ c ∈ l := by
  intro l
  induction l with
  | nil => intro b h; cases b <;> exact absurd h (List.not_mem_nil c)
  | cons a as ih =>
    intro b h
    cases b <;> unfold collapseUsAux at h <;> by_cases hus : (a == '_') = true
    · rw [if_pos hus] at h
      rcases List.mem_cons.mp h with h1 | h1
      · exact Or.inl h1
      · rcases ih true h1 with h2 | h2
        · exact Or.inl h2
        · exact Or.inr (List.mem_cons_of_mem a h2)
    · rw [if_neg hus] at h
      rcases List.mem_cons.mp h with h1 | h1
      · exact Or.inr (List.mem_cons.mpr (Or.inl h1))
      · rcases ih false h1 with h2 | h2
        · exact Or.inl h2
        · exact Or.inr (List.mem_cons_of_mem a h2)
    · rw [if_pos hus] at h
      rcases ih true h with h2 | h2
      · exact Or.inl h2
      · exact Or.inr (List.mem_cons_of_mem a h2)
    · rw [if_neg hus] at h
      rcases List.mem_cons.mp h with h1 | h1
      · exact Or.inr (List.mem_cons.mpr (Or.inl h1))
      · rcases ih false h1 with h2 | h2
        · exact Or.inl h2
        · exact Or.inr (List.mem_cons_of_mem a h2)

/-- Trimming keeps a subset of the characters. -/
theorem trimUnderscores_subset {c : Char} {l : List Char} (h : c ∈ trimUnderscores l) :
    c ∈ l := by
  unfold trimUnderscores at h
  rw [List.mem_reverse] at h
  have h2 := (List.dropWhile_sublist _).subset h
  rw [List.mem_reverse] at h2
  exact (List.dropWhile_sublist _).subset h2

/-- The head of a `dropWhile` result fails the predicate. -/
theorem dropWhile_head_not {p : Char → Bool} :
    ∀ {l : List Char} {d : Char}, (l.dropWhile p).head? = some d → p d = false := by
  intro l
  induction l with
  | nil => intro d h; exact Option.noConfusion h
  | cons a as ih =>
    intro d h
    rw [List.dropWhile_cons] at h
    by_cases hp : p a = true
    · rw [if_pos hp] at h; exact ih h
    · rw [if_neg hp] at h
      rw [List.head?_cons, Option.some.injEq] at h
      subst h
      exact Bool.not_eq_true _ ▸ hp

/-- In the underscore-run state, the next emitted character (if any) is not
an underscore. -/
theorem collapseUsAux_true_head :
    ∀ (l : List Char) (d : Char), (collapseUsAux true l).head? = some d → ¬ d = '_' := by
  intro l
  induction l with
  | nil => intro d h; exact Option.noConfusion h
  | cons a as ih =>
    intro d h
    unfold collapseUsAux at h
    by_cases hus : (a == '_') = true
    · rw [if_pos hus] at h; exact ih d h
    · rw [if_neg hus] at h
      rw [List.head?_cons, Option.some.injEq] at h
      subst h
      intro hd
      exact hus (hd ▸ beq_self_eq_true '_')

/-- The underscore-collapsing pass never emits two adjacent underscores. -/
theorem collapseUsAux_chain' : ∀ (l : List Char) (b : Bool), List.Chain' noUU (collapseUsAux b l) := by
  intro l
  induction l with
  | nil => intro b; cases b <;> exact List.chain'_nil
  | cons a as ih =>
    intro b
    cases b <;> unfold collapseUsAux <;> by_cases hus : (a == '_') = true
    · rw [if_pos hus]
      rw [List.chain'_cons']
      refine ⟨?_, ih true⟩
      intro y hy hcon
      exact collapseUsAux_true_head as y hy hcon.2
    · rw [if_neg hus]
      rw [List.chain'_cons']
      refine ⟨?_, ih false⟩
      intro y hy hcon
      exact hus (hcon.1 ▸ beq_self_eq_true '_')
    · rw [if_pos hus]
      exact ih true
    · rw [if_neg hus]
      rw [List.chain'_cons']
      refine ⟨?_, ih false⟩
      intro y hy hcon
      exact hus (hcon.1 ▸ beq_self_eq_true '_')

/-- `noUU` survives trimming (a suffix of a reversal of a suffix …). -/
theorem trimUnderscores_chain' {l : List Char} (h : List.Chain' noUU l) :
    List.Chain' noUU (trimUnderscores l) := by
  unfold trimUnderscores
  have symm : ∀ a b, noUU a b → flip noUU a b := by
    intro a b hab hcon
    exact hab ⟨hcon.2, hcon.1⟩
  have h1 : List.Chain' noUU (l.dropWhile (fun c => c == '_')) :=
    h.suffix (List.dropWhile_suffix _)
  have h2 : List.Chain' noUU ((l.dropWhile (fun c => c == '_')).reverse) :=
    List.chain'_reverse.mpr (List.Chain'.imp symm h1)
  have h3 : List.Chain' noUU (((l.dropWhile (fun c => c == '_')).reverse).dropWhile (fun c => c == '_')) :=
    h2.suffix (List.dropWhile_suffix _)
  exact List.chain'_reverse.mpr (List.Chain'.imp symm h3)

/-- C8: for every input, the sanitized filename contains none of the
characters `<>:"/\|?*`, has no two consecutive underscores, and neither
starts nor ends with an underscore; in particular sanitizing
`"My File: v2?.pdf"` yields `"My_File_v2_.pdf"`. -/
theorem sanitizeFilename_spec (s : String) :
    (∀ c ∈ (sanitizeFilename s).data, badChar c = false) ∧
    List.Chain' noUU (sanitizeFilename s).data ∧
    (∀ c, (sanitizeFilename s).data.head? = some c → ¬ c = '_') ∧
    (∀ c, (sanitizeFilename s).data.getLast? = some c → ¬ c = '_') ∧
    sanitizeFilename ("My File: v2?.pdf") = "My_File_v2_.pdf" := by
  refine ⟨?_, ?_, ?_, ?_, by decide⟩
  · intro c hc
    have h1 : c ∈ collapseUsAux false (collapseWsAux false (replaceBadChars s.data)) :=
      trimUnderscores_subset hc
    have hbad : badChar '_' = false := by decide
    rcases collapseUsAux_mem _ false h1 with h2 | h2
    · subst h2; exact hbad
    · rcases collapseWsAux_mem _ false h2 with h3 | h3
      · subst h3; exact hbad
      · unfold replaceBadChars at h3
        rcases List.mem_map.mp h3 with ⟨a, _, ha⟩
        by_cases hba : badChar a = true
        · rw [if_pos hba] at ha; subst ha; exact hbad
        · rw [if_neg hba] at ha
          subst ha
          exact Bool.not_eq_true _ ▸ hba
  · exact trimUnderscores_chain' (collapseUsAux_chain' _ false)
  · intro c hc
    unfold sanitizeFilename at hc
    rw [show (String.mk (trimUnderscores (collapseUsAux false (collapseWsAux false (replaceBadChars s.data))))).data = trimUnderscores (collapseUsAux false (collapseWsAux false (replaceBadChars s.data))) from rfl] at hc
    unfold trimUnderscores at hc
    rw [List.head?_reverse] at hc
    set m := (collapseUsAux false (collapseWsAux false (replaceBadChars s.data))).dropWhile (fun c => c == '_') with hm
    obtain ⟨t, ht⟩ := List.dropWhile_suffix (l := m.reverse) (fun c => c == '_')
    cases hk : m.reverse.dropWhile (fun c => c == '_') with
    | nil =>
      rw [hk] at hc
      exact Option.noConfusion hc
    | cons x xs =>
      rw [hk] at hc ht
      -- hc : (x :: xs).getLast? = some c, ht : t ++ x :: xs = m.reverse
      have hml : m.reverse.getLast? = some c := by
        rw [← ht, List.getLast?_append_of_ne_nil t (by simp), hc]
      rw [List.getLast?_reverse] at hml
      have hpc := dropWhile_head_not (p := fun c => c == '_') (hm ▸ hml)
      intro hc2
      rw [hc2] at hpc
      exact absurd hpc (by decide)
  · intro c hc
    unfold sanitizeFilename at hc
    rw [show (String.mk (trimUnderscores (collapseUsAux false (collapseWsAux false (replaceBadChars s.data))))).data = trimUnderscores (collapseUsAux false (collapseWsAux false (replaceBadChars s.data))) from rfl] at hc
    unfold trimUnderscores at hc
    rw [List.getLast?_reverse] at hc
    have := dropWhile_head_not (p := fun c => c == '_') hc
    intro hc2
    rw [hc2] at this
    exact absurd this (by decide)

/-! ## C9: `formatFileSize` -/

/-- Characterisation of the division loop: it divides by 1024 exactly `m`
times, never past index 3, stopping below 1024 unless the index is
exhausted, and every division step was taken from a value at least 1024. -/
theorem sizeLoopAux_spec :
    ∀ (fuel : Nat) (n d : Int) (i : Nat), fuel = 3 - i → i ≤ 3 →
      ∃ m, i + m ≤ 3 ∧ sizeLoopAux fuel n d i = (n, d * 1024 ^ m, i + m) ∧
        (i + m < 3 → n < 1024 * (d * 1024 ^ m)) ∧
        (∀ j < m, 1024 * (d * 1024 ^ j) ≤ n) := by
  intro fuel
  induction fuel with
  | zero =>
    intro n d i hfuel hi
    have hi3 : i = 3 := by omega
    refine ⟨0, by omega, ?_, by omega, by omega⟩
    simp [sizeLoopAux]
  | succ fuel ih =>
    intro n d i hfuel hi
    by_cases hcond : 1024 * d ≤ n ∧ i < 3
    · obtain ⟨m', hle, heq, hlt, hall⟩ :=
        ih n (d * 1024) (i + 1) (by omega) (by omega)
      have hpow : ∀ j : Nat, d * 1024 * 1024 ^ j = d * 1024 ^ (j + 1) := by
        intro j
        rw [pow_succ']
        ring
      refine ⟨m' + 1, by omega, ?_, ?_, ?_⟩
      · show sizeLoopAux (fuel + 1) n d i = _
        unfold sizeLoopAux
        rw [if_pos hcond, heq, hpow]
        refine congrArg _ (congrArg _ ?_)
        omega
      · intro hlt2
        have h := hlt (by omega)
        rw [hpow] at h
        exact h
      · intro j hj
        cases j with
        | zero =>
          rw [pow_zero, mul_one]
          exact hcond.1
        | succ j' =>
          have h := hall j' (by omega)
          rw [hpow] at h
          exact h
    · refine ⟨0, by omega, ?_, ?_, by omega⟩
      · show sizeLoopAux (fuel + 1) n d i = _
        unfold sizeLoopAux
        rw [if_neg hcond]
        simp
      · intro hlt2
        rw [pow_zero, mul_one]
        rw [Nat.add_zero] at hlt2
        by_contra hge
        exact hcond ⟨le_of_not_lt hge, hlt2⟩

/-- C9: `formatFileSize` renders `1536` as `"1.5 KB"` and `500` as
`"500.0 B"`, and in general divides by 1024 at most three times — choosing
the unit `B`/`KB`/`MB`/`GB` accordingly, stopping as soon as the scaled size
is below 1024 — and renders the scaled size (the value `bytes / 1024 ^ k`)
with exactly one decimal digit. -/
theorem formatFileSize_spec (bytes : ℚ) (hb : 0 ≤ bytes) :
    formatFileSize 1536 = "1.5 KB" ∧
    formatFileSize 500 = "500.0 B" ∧
    ∃ k, k ≤ 3 ∧
      formatFileSize bytes =
        toFixed1Frac bytes.num ((bytes.den : Int) * 1024 ^ k) ++ " " ++
          fileSizeUnits.getD k ("B") ∧
      ((bytes.num : ℚ) / (((bytes.den : Int) * 1024 ^ k : Int) : ℚ) = bytes / 1024 ^ k) ∧
      fileSizeUnits.getD k ("B") ∈ fileSizeUnits ∧
      (k < 3 → bytes / 1024 ^ k < 1024) ∧
      (∀ j < k, 1024 ≤ bytes / 1024 ^ j) ∧
      (∃ ip dg : Nat, dg < 10 ∧
        toFixed1Frac bytes.num ((bytes.den : Int) * 1024 ^ k) =
          toString ip ++ "." ++ toString dg) := by
  refine ⟨by decide, by decide, ?_⟩
  have hd : (0 : Int) < (bytes.den : Int) := Int.ofNat_pos.mpr bytes.pos
  have hcastden : ((bytes.den : Int) : ℚ) = (bytes.den : ℚ) := by push_cast; ring
  have hfrac : ∀ j : Nat, bytes / 1024 ^ j = (bytes.num : ℚ) / (((bytes.den : Int) : ℚ) * 1024 ^ j) := by
    intro j
    rw [← div_div, hcastden, Rat.num_div_den]
  have hpowpos : ∀ j : Nat, (0 : ℚ) < ((bytes.den : Int) : ℚ) * 1024 ^ j := by
    intro j
    have h1 : (0 : ℚ) < ((bytes.den : Int) : ℚ) := by exact_mod_cast hd
    positivity
  obtain ⟨m, hle, heq, hlt, hall⟩ := sizeLoopAux_spec 3 bytes.num (bytes.den : Int) 0 (by omega) (by omega)
  rw [Nat.zero_add] at hle heq hlt
  refine ⟨m, hle, ?_, ?_, ?_, ?_, ?_, ?_⟩
  · unfold formatFileSize
    rw [heq]
  · rw [hfrac m]
    push_cast
    ring_nf
  · interval_cases m <;> decide
  · intro hm3
    have h := hlt hm3
    rw [hfrac m, div_lt_iff₀ (hpowpos m)]
    calc (bytes.num : ℚ) < ((1024 * ((bytes.den : Int) * 1024 ^ m) : Int) : ℚ) := by exact_mod_cast h
    _ = 1024 * (((bytes.den : Int) : ℚ) * 1024 ^ m) := by push_cast; ring
  · intro j hj
    have h := hall j hj
    rw [hfrac j, le_div_iff₀ (hpowpos j)]
    calc (1024 : ℚ) * (((bytes.den : Int) : ℚ) * 1024 ^ j)
        = ((1024 * ((bytes.den : Int) * 1024 ^ j) : Int) : ℚ) := by push_cast; ring
    _ ≤ (bytes.num : ℚ) := by exact_mod_cast h
  · have hn : ¬ bytes.num < 0 := not_lt.mpr (Rat.num_nonneg.mpr hb)
    refine ⟨(jsRound1 bytes.num ((bytes.den : Int) * 1024 ^ m)).toNat / 10,
            (jsRound1 bytes.num ((bytes.den : Int) * 1024 ^ m)).toNat % 10,
            Nat.mod_lt _ (by norm_num), ?_⟩
    unfold toFixed1Frac
    rw [if_neg hn]

/-- C9 witness: the two concrete renderings, through the theorem at 1536. -/
theorem formatFileSize_spec_witness :
    formatFileSize 1536 = "1.5 KB" ∧ formatFileSize 500 = "500.0 B" :=
  ⟨(formatFileSize_spec 1536 (by norm_num)).1, (formatFileSize_spec 1536 (by norm_num)).2.1⟩

/-! ## C4: the first-response-time entry of the summary block

The code sets `firstCustomerMessageTime` at the first customer-category
thread in array order and `firstSupportReplyTime` at the first
reply-category thread that comes after it in array order — the timestamps
themselves are never compared. -/

/-- The timestamp of the first reply-category thread of a list. -/
def firstReplyTime (ts : List Thread) : Option Int :=
  (ts.find? (fun t => decide (threadCat t = TCat.reply))).map (fun t => t.createdAt)

/-- The pair (first customer-thread timestamp, timestamp of the first
reply-category thread after it in sequence order), when both exist. -/
def firstResponsePair : List Thread → Option (Int × Int)
  | [] => none
  | t :: ts =>
    if threadCat t = TCat.customer then
      (firstReplyTime ts).map (fun b => (t.createdAt, b))
    else firstResponsePair ts

/-- Pairing of the two loop registers, as the final `if (a && b)` reads them. -/
def pairOf (x y : Option Int) : Option (Int × Int) :=
  match x, y with
  | some a, some b => some (a, b)
  | _, _ => none

/-- Once set, `firstCustomerMessageTime` never changes. -/
theorem foldl_fcmt_some {a : Int} :
    ∀ (ts : List Thread) (acc : StatsAcc), acc.firstCustomerMessageTime = some a →
      (ts.foldl stepStats acc).firstCustomerMessageTime = some a := by
  intro ts
  induction ts with
  | nil => intro acc h; exact h
  | cons t ts ih =>
    intro acc h
    rw [List.foldl_cons]
    apply ih
    unfold stepStats
    cases threadCat t <;> simp [h]

/-- Once set, `firstSupportReplyTime` never changes. -/
theorem foldl_fsrt_some {b : Int} :
    ∀ (ts : List Thread) (acc : StatsAcc), acc.firstSupportReplyTime = some b →
      (ts.foldl stepStats acc).firstSupportReplyTime = some b := by
  intro ts
  induction ts with
  | nil => intro acc h; exact h
  | cons t ts ih =>
    intro acc h
    rw [List.foldl_cons]
    apply ih
    unfold stepStats
    cases threadCat t <;> simp [h]

/-- After the first customer thread was seen (`fcmt` set, `fsrt` not yet),
the reply register ends up holding the first reply-category timestamp of
the remaining threads. -/
theorem foldl_reply_phase {a : Int} :
    ∀ (ts : List Thread) (acc : StatsAcc),
      acc.firstCustomerMessageTime = some a → acc.firstSupportReplyTime = none →
      (ts.foldl stepStats acc).firstCustomerMessageTime = some a ∧
      (ts.foldl stepStats acc).firstSupportReplyTime = firstReplyTime ts := by
  intro ts
  induction ts with
  | nil => intro acc h1 h2; exact ⟨h1, h2⟩
  | cons t ts ih =>
    intro acc h1 h2
    rw [List.foldl_cons]
    by_cases hc : threadCat t = TCat.reply
    · have hstep1 : (stepStats acc t).firstCustomerMessageTime = some a := by
        unfold stepStats
        rw [hc]
        simp [h1]
      have hstep2 : (stepStats acc t).firstSupportReplyTime = some t.createdAt := by
        unfold stepStats
        rw [hc]
        simp [h1, h2]
      refine ⟨foldl_fcmt_some ts _ hstep1, ?_⟩
      rw [foldl_fsrt_some ts _ hstep2]
      unfold firstReplyTime
      rw [List.find?_cons_of_pos _ (by simp [hc])]
      rfl
    · have hstep1 : (stepStats acc t).firstCustomerMessageTime = some a := by
        unfold stepStats
        cases threadCat t <;> simp [h1]
      have hstep2 : (stepStats acc t).firstSupportReplyTime = none := by
        unfold stepStats
        cases hcat : threadCat t <;> simp [h1, h2]
        · exact absurd hcat hc
      obtain ⟨r1, r2⟩ := ih (stepStats acc t) hstep1 hstep2
      refine ⟨r1, ?_⟩
      rw [r2]
      unfold firstReplyTime
      rw [List.find?_cons_of_neg _ (by simp [hc])]

/-- Before any customer thread was seen, the loop computes exactly
`firstResponsePair`. -/
theorem foldl_scan_phase :
    ∀ (ts : List Thread) (acc : StatsAcc),
      acc.firstCustomerMessageTime = none → acc.firstSupportReplyTime = none →
      pairOf (ts.foldl stepStats acc).firstCustomerMessageTime
        (ts.foldl stepStats acc).firstSupportReplyTime = firstResponsePair ts := by
  intro ts
  induction ts with
  | nil =>
    intro acc h1 h2
    simp only [List.foldl_nil, h1, h2]
    rfl
  | cons t ts ih =>
    intro acc h1 h2
    rw [List.foldl_cons]
    by_cases hc : threadCat t = TCat.customer
    · have hstep1 : (stepStats acc t).firstCustomerMessageTime = some t.createdAt := by
        unfold stepStats
        rw [hc]
        simp [h1]
      have hstep2 : (stepStats acc t).firstSupportReplyTime = none := by
        unfold stepStats
        rw [hc]
        simp [h2]
      obtain ⟨r1, r2⟩ := foldl_reply_phase ts (stepStats acc t) hstep1 hstep2
      rw [r1, r2]
      unfold firstResponsePair
      rw [if_pos hc]
      cases hfr : firstReplyTime ts <;> rfl
    · have hstep1 : (stepStats acc t).firstCustomerMessageTime = none := by
        unfold stepStats
        cases hcat : threadCat t <;> simp [h1]
        · exact absurd hcat hc
      have hstep2 : (stepStats acc t).firstSupportReplyTime = none := by
        unfold stepStats
        cases hcat : threadCat t <;> simp [h1, h2]
      rw [ih (stepStats acc t) hstep1 hstep2]
      rw [show firstResponsePair (t :: ts) =
            if threadCat t = TCat.customer then
              (firstReplyTime ts).map (fun b => (t.createdAt, b))
            else firstResponsePair ts from rfl]
      rw [if_neg hc]

/-- A reply-category thread exists iff `firstReplyTime` finds one. -/
theorem firstReplyTime_isSome_iff (ts : List Thread) :
    (firstReplyTime ts).isSome = true ↔ ∃ t ∈ ts, threadCat t = TCat.reply := by
  unfold firstReplyTime
  rw [Option.isSome_map']
  rw [List.find?_isSome]
  constructor
  · rintro ⟨t, ht, hp⟩
    exact ⟨t, ht, of_decide_eq_true hp⟩
  · rintro ⟨t, ht, hp⟩
    exact ⟨t, ht, decide_eq_true hp⟩

/-- The pair exists iff some customer-category thread precedes some
reply-category thread in sequence order. -/
theorem firstResponsePair_isSome_iff (ts : List Thread) :
    (firstResponsePair ts).isSome = true ↔
      ∃ i j : Nat, i < j ∧ ∃ ti tj, ts[i]? = some ti ∧ ts[j]? = some tj ∧
        threadCat ti = TCat.customer ∧ threadCat tj = TCat.reply := by
  induction ts with
  | nil =>
    constructor
    · intro h
      exact absurd h (by simp [firstResponsePair])
    · rintro ⟨i, j, hij, ti, tj, hi, hj, hci, hcj⟩
      rw [List.getElem?_nil] at hi
      exact Option.noConfusion hi
  | cons t ts ih =>
    by_cases hc : threadCat t = TCat.customer
    · rw [show firstResponsePair (t :: ts) =
            if threadCat t = TCat.customer then
              (firstReplyTime ts).map (fun b => (t.createdAt, b))
            else firstResponsePair ts from rfl, if_pos hc, Option.isSome_map']
      rw [firstReplyTime_isSome_iff]
      constructor
      · rintro ⟨tr, htr, hcat⟩
        obtain ⟨j, hj⟩ := List.getElem?_of_mem htr
        refine ⟨0, j + 1, by omega, t, tr, List.getElem?_cons_zero, ?_, hc, hcat⟩
        rw [List.getElem?_cons_succ]
        exact hj
      · rintro ⟨i, j, hij, ti, tj, hi, hj, hci, hcj⟩
        cases j with
        | zero => omega
        | succ j' =>
          rw [List.getElem?_cons_succ] at hj
          exact ⟨tj, List.getElem?_mem hj, hcj⟩
    · rw [show firstResponsePair (t :: ts) =
            if threadCat t = TCat.customer then
              (firstReplyTime ts).map (fun b => (t.createdAt, b))
            else firstResponsePair ts from rfl, if_neg hc]
      rw [ih]
      constructor
      · rintro ⟨i, j, hij, ti, tj, hi, hj, hci, hcj⟩
        refine ⟨i + 1, j + 1, by omega, ti, tj, ?_, ?_, hci, hcj⟩
        · rw [List.getElem?_cons_succ]; exact hi
        · rw [List.getElem?_cons_succ]; exact hj
      · rintro ⟨i, j, hij, ti, tj, hi, hj, hci, hcj⟩
        cases i with
        | zero =>
          rw [List.getElem?_cons_zero, Option.some.injEq] at hi
          subst hi
          exact absurd hci hc
        | succ i' =>
          cases j with
          | zero => omega
          | succ j' =>
            rw [List.getElem?_cons_succ] at hi hj
            exact ⟨i', j', by omega, ti, tj, hi, hj, hci, hcj⟩

/-- A rendered duration is never the empty string. -/
theorem renderDuration_ne_empty (dms : Int) : renderDuration dms ≠ "" := by
  unfold renderDuration
  intro h
  dsimp only at h
  split_ifs at h
  · have hl := congrArg String.length h
    simp only [String.length_append] at hl
    rw [show (" hour" : String).length = 5 from rfl,
        show ("" : String).length = 0 from rfl] at hl
    omega
  · have hl := congrArg String.length h
    simp only [String.length_append] at hl
    rw [show (" minute" : String).length = 7 from rfl,
        show ("" : String).length = 0 from rfl] at hl
    omega
  · have hl := congrArg String.length h
    simp only [String.length_append] at hl
    rw [show (" minute" : String).length = 7 from rfl,
        show ("" : String).length = 0 from rfl] at hl
    omega

/-- Two appends whose left parts differ at index `i` are different lists. -/
theorem append_ne_append_of_get {A B : List Char} (i : Nat)
    (hiA : i < A.length) (hiB : i < B.length) (hne : A[i]? ≠ B[i]?) :
    ∀ x y : List Char, A ++ x ≠ B ++ y := by
  intro x y h
  have h1 : (A ++ x)[i]? = A[i]? := by rw [List.getElem?_append, if_pos hiA]
  have h2 : (B ++ y)[i]? = B[i]? := by rw [List.getElem?_append, if_pos hiB]
  rw [h] at h1
  exact hne (by rw [← h1, h2])

/-- A fixed string whose character at `i` differs from `pre`'s is no
`pre ++ s`. -/
theorem string_fixed_ne (lit pre : String) (i : Nat)
    (hiA : i < lit.data.length) (hiB : i < pre.data.length)
    (hne : lit.data[i]? ≠ pre.data[i]?) : ∀ s : String, lit ≠ pre ++ s := by
  intro s h
  have hd := congrArg String.data h
  rw [String.data_append] at hd
  have hd2 : lit.data ++ [] = pre.data ++ s.data := by
    rw [List.append_nil]
    exact hd
  exact append_ne_append_of_get i hiA hiB hne [] s.data hd2

/-- A string `litA ++ x` whose left literal differs from `pre` at index `i`
is no `pre ++ s`. -/
theorem string_append_ne (litA pre : String) (i : Nat)
    (hiA : i < litA.data.length) (hiB : i < pre.data.length)
    (hne : litA.data[i]? ≠ pre.data[i]?) : ∀ x s : String, litA ++ x ≠ pre ++ s := by
  intro x s h
  have hd := congrArg String.data h
  rw [String.data_append, String.data_append] at hd
  exact append_ne_append_of_get i hiA hiB hne x.data s.data hd

/-- C4 (amended): the summary block carries a first-response latency entry
iff at least one customer-category thread precedes at least one
reply-category thread in the sequence order of the thread list (timestamps
are not compared, so the rendered latency can be negative); when present,
the entry renders the difference between the first reply-after-customer's
timestamp and the first customer's timestamp through the
days+hours / hours+minutes / minutes format. -/
theorem responseTime_characterization (ts : List Thread) :
    (calculateThreadStatistics ts).responseTime =
      (firstResponsePair ts).map (fun p => renderDuration (p.2 - p.1)) ∧
    ((∃ line ∈ summaryLines (calculateThreadStatistics ts),
        ∃ s, line = "- **First Response Time**: " ++ s) ↔
      (firstResponsePair ts).isSome = true) ∧
    ((firstResponsePair ts).isSome = true ↔
      ∃ i j : Nat, i < j ∧ ∃ ti tj, ts[i]? = some ti ∧ ts[j]? = some tj ∧
        threadCat ti = TCat.customer ∧ threadCat tj = TCat.reply) := by
  have hpart1 : (calculateThreadStatistics ts).responseTime =
      (firstResponsePair ts).map (fun p => renderDuration (p.2 - p.1)) := by
    have hscan := foldl_scan_phase ts initStatsAcc rfl rfl
    unfold calculateThreadStatistics
    dsimp only
    rw [← hscan]
    generalize (List.foldl stepStats initStatsAcc ts).firstCustomerMessageTime = A
    generalize (List.foldl stepStats initStatsAcc ts).firstSupportReplyTime = B
    cases A <;> cases B <;> rfl
  refine ⟨hpart1, ?_, firstResponsePair_isSome_iff ts⟩
  constructor
  · intro hex
    cases hp : firstResponsePair ts with
    | some pr => rfl
    | none =>
      exfalso
      obtain ⟨line, hline, s, hs⟩ := hex
      rw [hp] at hpart1
      simp only [Option.map_none'] at hpart1
      unfold summaryLines at hline
      rw [hpart1] at hline
      subst hs
      rcases List.mem_append.mp hline with h | h
      · rcases List.mem_append.mp h with h | h
        · simp only [List.mem_cons, List.not_mem_nil, or_false] at h
          rcases h with h | h | h | h | h
          · exact string_fixed_ne ("## Summary") ("- **First Response Time**: ") 0
              (by decide) (by decide) (by decide) s h.symm
          · obtain ⟨x, hx⟩ : ∃ x, "- **First Response Time**: " ++ s =
                "- **Total Threads**: " ++ x := ⟨_, h⟩
            exact string_append_ne ("- **Total Threads**: ") ("- **First Response Time**: ") 4
              (by decide) (by decide) (by decide) x s hx.symm
          · obtain ⟨x, hx⟩ : ∃ x, "- **First Response Time**: " ++ s =
                "- **Customer Messages**: " ++ x := ⟨_, h⟩
            exact string_append_ne ("- **Customer Messages**: ") ("- **First Response Time**: ") 4
              (by decide) (by decide) (by decide) x s hx.symm
          · obtain ⟨x, hx⟩ : ∃ x, "- **First Response Time**: " ++ s =
                "- **Support Replies**: " ++ x := ⟨_, h⟩
            exact string_append_ne ("- **Support Replies**: ") ("- **First Response Time**: ") 4
              (by decide) (by decide) (by decide) x s hx.symm
          · obtain ⟨x, hx⟩ : ∃ x, "- **First Response Time**: " ++ s =
                "- **Internal Notes**: " ++ x := ⟨_, h⟩
            exact string_append_ne ("- **Internal Notes**: ") ("- **First Response Time**: ") 4
              (by decide) (by decide) (by decide) x s hx.symm
        · split at h
          · simp only [List.mem_cons, List.not_mem_nil, or_false] at h
            obtain ⟨x, hx⟩ : ∃ x, "- **First Response Time**: " ++ s =
                "- **Attachments**: " ++ x := ⟨_, h⟩
            exact string_append_ne ("- **Attachments**: ") ("- **First Response Time**: ") 4
              (by decide) (by decide) (by decide) x s hx.symm
          · exact List.not_mem_nil _ h
      · exact List.not_mem_nil _ h
  · intro hsome
    obtain ⟨pr, hp⟩ := Option.isSome_iff_exists.mp hsome
    have hrt : (calculateThreadStatistics ts).responseTime =
        some (renderDuration (pr.2 - pr.1)) := by
      rw [hpart1, hp]
      rfl
    refine ⟨"- **First Response Time**: " ++ renderDuration (pr.2 - pr.1), ?_,
      renderDuration (pr.2 - pr.1), rfl⟩
    unfold summaryLines
    rw [hrt]
    dsimp only
    rw [if_neg (renderDuration_ne_empty _)]
    refine List.mem_append.mpr (Or.inr ?_)
    exact List.mem_singleton.mpr rfl

/-- The thread list of the C4 counterexample: a customer message at epoch
millisecond 100 followed (in array order) by a reply at millisecond 0. -/
def cexThreads : List Thread :=
  [sampleThread 1 "customer" 100, sampleThread 2 "reply" 0]

/-- C4 counterexample: the code emits a first-response entry (of `-1
minutes`) although no customer thread chronologically precedes (by
`createdAt` timestamp) any reply thread. -/
theorem responseTime_chronology_cex :
    (calculateThreadStatistics cexThreads).responseTime = some ("-1 minutes") ∧
    ¬ (∃ tc ∈ cexThreads, ∃ tr ∈ cexThreads,
        threadCat tc = TCat.customer ∧ threadCat tr = TCat.reply ∧
        tc.createdAt < tr.createdAt) := by
  constructor
  · rfl
  · decide

/-! ## C5: per-attachment failures do not abort the run -/

/-- A conditional-append fold collects exactly the filtered, mapped list. -/
theorem foldl_filter_map_append {α β : Type} (c : α → Bool) (f : α → β) :
    ∀ (l : List α) (acc : List β),
      l.foldl (fun acc2 a => if c a then acc2 ++ [f a] else acc2) acc =
        acc ++ (l.filter c).map f := by
  intro l
  induction l with
  | nil => intro acc; simp
  | cons a as ih =>
    intro acc
    rw [List.foldl_cons]
    by_cases hc : c a = true
    · rw [if_pos hc, ih, List.filter_cons_of_pos hc]
      simp
    · rw [if_neg hc, ih, List.filter_cons_of_neg (by simp [hc])]

/-- An append fold is a `flatMap`. -/
theorem foldl_append_flatMap {α β : Type} (g : α → List β) :
    ∀ (l : List α) (acc : List β),
      l.foldl (fun acc a => acc ++ g a) acc = acc ++ l.flatMap g := by
  intro l
  induction l with
  | nil => intro acc; simp
  | cons a as ih =>
    intro acc
    rw [List.foldl_cons, ih]
    simp

/-- The path index collects exactly the successfully downloaded attachments,
keyed and valued as the loop records them. -/
theorem buildAttachmentPaths_eq (threads : List Thread) (fetchOk : Nat → Nat → Bool) :
    buildAttachmentPaths threads fetchOk =
      threads.flatMap (fun t =>
        ((attachmentsOf t).filter (fun a => downloadSucceeds fetchOk t a)).map
          (fun a => (attachmentKey t a, attachmentRelPath t a))) := by
  unfold buildAttachmentPaths
  have hfun : (fun (acc : List (String × String)) (t : Thread) =>
      (attachmentsOf t).foldl (fun acc2 a =>
        if downloadSucceeds fetchOk t a then acc2 ++ [(attachmentKey t a, attachmentRelPath t a)]
        else acc2) acc) =
      (fun acc t => acc ++
        ((attachmentsOf t).filter (fun a => downloadSucceeds fetchOk t a)).map
          (fun a => (attachmentKey t a, attachmentRelPath t a))) := by
    funext acc t
    exact foldl_filter_map_append _ _ _ acc
  rw [hfun, foldl_append_flatMap]
  rw [List.nil_append]

/-- Membership in the path index. -/
theorem mem_buildAttachmentPaths {threads : List Thread} {fetchOk : Nat → Nat → Bool}
    {kv : String × String} :
    kv ∈ buildAttachmentPaths threads fetchOk ↔
      ∃ t ∈ threads, ∃ a ∈ attachmentsOf t, downloadSucceeds fetchOk t a = true ∧
        kv = (attachmentKey t a, attachmentRelPath t a) := by
  rw [buildAttachmentPaths_eq]
  rw [List.mem_flatMap]
  constructor
  · rintro ⟨t, ht, hkv⟩
    rw [List.mem_map] at hkv
    obtain ⟨a, ha, hkv⟩ := hkv
    rw [List.mem_filter] at ha
    exact ⟨t, ht, a, ha.1, ha.2, hkv.symm⟩
  · rintro ⟨t, ht, a, ha, hsucc, hkv⟩
    refine ⟨t, ht, ?_⟩
    rw [List.mem_map]
    exact ⟨a, List.mem_filter.mpr ⟨ha, hsucc⟩, hkv.symm⟩

/-- The metadata counter is the total attachment count over all threads. -/
theorem foldl_add_length :
    ∀ (l : List Thread) (n : Nat),
      l.foldl (fun n t => n + (attachmentsOf t).length) n =
        n + (l.map (fun t => (attachmentsOf t).length)).sum := by
  intro l
  induction l with
  | nil => intro n; simp
  | cons t ts ih =>
    intro n
    rw [List.foldl_cons, ih, List.map_cons, List.sum_cons]
    omega

/-- C5: when one attachment's download fails (for any reason, a missing
download link included), the run is not aborted — every other attachment's
success is still recorded — the failed attachment is absent from the path
index, its transcript line is the bare filename without a link, and the
metadata attachment count still counts every attachment of every thread. -/
theorem download_failure_skips_and_continues
    (threads : List Thread) (fetchOk : Nat → Nat → Bool) (t : Thread) (a : Attachment)
    (ht : t ∈ threads) (ha : a ∈ attachmentsOf t)
    (hkeys : ∀ t' ∈ threads, ∀ a' ∈ attachmentsOf t',
       attachmentKey t' a' = attachmentKey t a → t' = t ∧ a' = a) :
    (downloadSucceeds fetchOk t a = false →
       lookupPath (buildAttachmentPaths threads fetchOk) (attachmentKey t a) = none ∧
       attachmentLine (buildAttachmentPaths threads fetchOk) t a =
         "- " ++ a.filename ++ " (" ++ formatFileSize a.size ++ ")") ∧
    (downloadSucceeds fetchOk t a = true →
       lookupPath (buildAttachmentPaths threads fetchOk) (attachmentKey t a) =
         some (attachmentRelPath t a)) ∧
    metadataAttachmentCount threads =
      (threads.map (fun th => (attachmentsOf th).length)).sum := by
  refine ⟨?_, ?_, ?_⟩
  · intro hfail
    have hnone : lookupPath (buildAttachmentPaths threads fetchOk) (attachmentKey t a) = none := by
      unfold lookupPath
      rw [List.find?_eq_none.mpr, Option.map_none']
      intro kv hkv hbeq
      rw [List.mem_reverse] at hkv
      obtain ⟨t', ht', a', ha', hsucc, hkv⟩ := mem_buildAttachmentPaths.mp hkv
      have hk : attachmentKey t' a' = attachmentKey t a := by
        have : kv.1 = attachmentKey t' a' := by rw [hkv]
        rw [← this]
        exact eq_of_beq hbeq
      obtain ⟨rfl, rfl⟩ := hkeys t' ht' a' ha' hk
      rw [hsucc] at hfail
      exact Bool.noConfusion hfail
    refine ⟨hnone, ?_⟩
    unfold attachmentLine
    rw [hnone]
  · intro hsucc
    have hmem : (attachmentKey t a, attachmentRelPath t a) ∈
        (buildAttachmentPaths threads fetchOk).reverse := by
      rw [List.mem_reverse]
      exact mem_buildAttachmentPaths.mpr ⟨t, ht, a, ha, hsucc, rfl⟩
    have hisSome : ((buildAttachmentPaths threads fetchOk).reverse.find?
        (fun kv => kv.1 == attachmentKey t a)).isSome = true := by
      rw [List.find?_isSome]
      exact ⟨_, hmem, by simp⟩
    obtain ⟨kv0, hfind⟩ := Option.isSome_iff_exists.mp hisSome
    have hpred := List.find?_some hfind
    have hkvmem := List.mem_of_find?_eq_some hfind
    rw [List.mem_reverse] at hkvmem
    obtain ⟨t', ht', a', ha', hsucc', hkv0⟩ := mem_buildAttachmentPaths.mp hkvmem
    have hk : attachmentKey t' a' = attachmentKey t a := by
      have h1 : kv0.1 = attachmentKey t' a' := by rw [hkv0]
      rw [← h1]
      exact eq_of_beq hpred
    obtain ⟨rfl, rfl⟩ := hkeys t' ht' a' ha' hk
    unfold lookupPath
    rw [hfind, Option.map_some']
    rw [hkv0]
  · unfold metadataAttachmentCount
    rw [foldl_add_length]
    omega

/-- The attachment without a download link of the C5 witness. -/
def witAttachmentBad : Attachment :=
  ⟨1, "bad.pdf", "application/pdf", none, none, 500, "ok", none⟩

/-- The downloadable attachment of the C5 witness. -/
def witAttachmentGood : Attachment :=
  ⟨2, "good.png", "image/png", none, none, 1536, "ok", some ⟨some ⟨"https://x/d"⟩⟩⟩

/-- The single thread of the C5 witness, carrying both attachments. -/
def witThread : Thread :=
  ⟨7, "customer", "active", "published", none, "", none, none, none, 0,
   some [witAttachmentBad, witAttachmentGood], none⟩

/-- C5 witness: with the fetch oracle always succeeding, the link-less
attachment is absent from the index and rendered bare. -/
theorem download_failure_skips_witness :
    lookupPath (buildAttachmentPaths [witThread] (fun _ _ => true))
      (attachmentKey witThread witAttachmentBad) = none ∧
    attachmentLine (buildAttachmentPaths [witThread] (fun _ _ => true))
      witThread witAttachmentBad =
      "- " ++ witAttachmentBad.filename ++ " (" ++ formatFileSize witAttachmentBad.size ++ ")" :=
  (download_failure_skips_and_continues [witThread] (fun _ _ => true) witThread witAttachmentBad
    (by decide) (by decide) (by decide)).1 (by decide)

end Argus
